import Mathlib

set_option maxRecDepth 8000

/-!
Verification of the request-to-artifact pipeline of the repository
(`app/main.py`, `app/llm_generator.py`, `app/github_utils.py`).
Strings are modelled as `List Char`; bytes as `List Nat`; the regular
expressions of the source are modelled by explicit character scanners with
the same matching semantics (leftmost scan, greedy `\s*`, lazy groups,
first-alternative choice); fallible Python code is modelled with
`Option`/`Except`; the process-local file system and the idempotency store
are modelled as explicit association lists passed through the functions.
-/

abbrev Str := List Char

/-- Python's default `str.strip` whitespace set (ASCII part). -/
def isWs (c : Char) : Bool :=
  c == ' ' || c == '\t' || c == '\n' || c == '\r' || c == '\x0b' || c == '\x0c'

/-- Drop trailing whitespace. -/
def dropRightWs (s : Str) : Str := (s.reverse.dropWhile isWs).reverse

/-- Python `str.strip()`. -/
def pstrip (s : Str) : Str := dropRightWs (s.dropWhile isWs)

/-- Python `str.startswith`. -/
def startsWith (pre s : Str) : Bool := pre.isPrefixOf s

/-- Python `str.endswith`. -/
def endsWith (suf s : Str) : Bool := suf.reverse.isPrefixOf s.reverse

/-- Python `pat in s` (substring membership). -/
def containsSubstr (p : Str) : Str → Bool
  | [] => p.isEmpty
  | c :: t => p.isPrefixOf (c :: t) || containsSubstr p t

/-- Python `s.split(sep, 1)`: the parts around the first occurrence of `sep`,
`none` when `sep` does not occur. -/
def splitFirst (sep : Str) : Str → Option (Str × Str)
  | [] => if sep.isEmpty then some ([], []) else none
  | c :: t =>
    if sep.isPrefixOf (c :: t) then some ([], (c :: t).drop sep.length)
    else
      match splitFirst sep t with
      | some q => some (c :: q.1, q.2)
      | none => none

/-- Python `sep.join(xs)`. -/
def joinWith (sep : Str) : List Str → Str
  | [] => []
  | [x] => x
  | x :: y :: xs => x ++ sep ++ joinWith sep (y :: xs)

/-- Python `s.replace(pat, rep)` (non-overlapping, left to right), with a
character-count fuel; the guard on an empty pattern keeps the model total. -/
def replaceAllAux (pat rep : Str) : Nat → Str → Str
  | 0, s => s
  | _ + 1, [] => []
  | fuel + 1, c :: t =>
    if pat.isPrefixOf (c :: t) && !pat.isEmpty then
      rep ++ replaceAllAux pat rep fuel ((c :: t).drop pat.length)
    else c :: replaceAllAux pat rep fuel t

def replaceAll (pat rep s : Str) : Str := replaceAllAux pat rep s.length s

/-- Python dict assignment `d[k] = v` on an insertion-ordered dict modelled
as an association list: overwrite in place if the key exists, else append. -/
def pyDictInsert (d : List (Str × Str)) (k v : Str) : List (Str × Str) :=
  if d.any (fun q => q.1 == k) then d.map (fun q => if q.1 == k then (k, v) else q)
  else d ++ [(k, v)]

/-! ## The multi-file model-output scanner (`llm_generator.generate_app_code`)

The source parses the model output with
`re.compile(r">>> filename:\s*(.+?)\n(.*?)(?=\n---END FILE---|$)", re.S).findall`.
The scanner below implements exactly that pattern's semantics: scan left to
right for the literal `>>> filename:`; then `\s*` is greedy with
backtracking, the lazy `(.+?)` ends at the first newline after at least one
character, and the lazy `(.*?)` ends at the first position where
`\n---END FILE---` follows or where `$` (end of text, or just before a final
newline, as in Python without `re.M`) matches; scanning resumes at the end
of the match (the lookahead consumes nothing). -/

def litFN : Str := ">>> filename:".toList

def endMk : Str := "\n---END FILE---".toList

/-- Attempt of `\s*(.+?)\n` with `\s*` having consumed exactly `k` characters:
the group is everything up to the first newline strictly after position `k`. -/
def nameAt (t : Str) (k : Nat) : Option (Str × Str) :=
  match t.drop k with
  | c :: u =>
    if u.any (fun d => d == '\n') then
      some (c :: u.takeWhile (fun d => !(d == '\n')),
            (u.dropWhile (fun d => !(d == '\n'))).tail)
    else none
  | [] => none

/-- Greedy `\s*`: try the longest whitespace run first, backtracking down. -/
def nameTryK (t : Str) : Nat → Option (Str × Str)
  | 0 => nameAt t 0
  | k + 1 =>
    match nameAt t (k + 1) with
    | some r => some r
    | none => nameTryK t k

def nameSplit (t : Str) : Option (Str × Str) :=
  nameTryK t (t.takeWhile isWs).length

/-- Lazy `(.*?)(?=\n---END FILE---|$)`: the captured content and the rest of
the text from the (zero-width) end of the match. -/
def contentScan : Str → Str × Str
  | [] => ([], [])
  | c :: t =>
    if endMk.isPrefixOf (c :: t) || (c == '\n' && t.isEmpty) then ([], c :: t)
    else
      let q := contentScan t
      (c :: q.1, q.2)

/-- `findall` of the file pattern, with character-count fuel (each step
consumes at least one character, so `s.length` fuel is always enough). -/
def faAux : Nat → Str → List (Str × Str)
  | 0, _ => []
  | _ + 1, [] => []
  | fuel + 1, c :: t =>
    if litFN.isPrefixOf (c :: t) then
      match nameSplit ((c :: t).drop litFN.length) with
      | some (g, r) =>
        let q := contentScan r
        (g, q.1) :: faAux fuel q.2
      | none => faAux fuel t
    else faAux fuel t

def findAllMatches (s : Str) : List (Str × Str) := faAux s.length s

/-- `llm_generator._strip_code_block`: if triple backticks occur, return the
segment between the first pair (Python `text.split("```")[1]`), stripped;
otherwise the stripped text. -/
def fence : Str := "```".toList

def stripCodeBlock (text : Str) : Str :=
  match splitFirst fence text with
  | some q =>
    (match splitFirst fence q.2 with
     | some q2 => pstrip q2.1
     | none => pstrip q.2)
  | none => pstrip text

/-- `llm_generator.generate_readme_fallback` (note the source joins checks
with a literal backslash-n, `"\\n"`). -/
def generate_readme_fallback (brief : Str) (checks : List Str) (attachmentsMeta : Str)
    (roundNum : Nat) : Str :=
  "# Auto-generated README (Round ".toList ++ (toString roundNum).toList ++
  ")\n\n**Project brief:** ".toList ++ brief ++
  "\n\n**Attachments:**\n".toList ++ attachmentsMeta ++
  "\n\n**Checks to meet:**\n".toList ++ joinWith ("\\n".toList) checks ++
  "\n\n## Setup\n1. Open `index.html` in a browser.\n2. No build steps required.\n\n## Notes\nThis README was generated as a fallback (OpenAI did not return an explicit README).\n".toList

def legacySep : Str := "---README.md---".toList

/-- The parsing tail of `generate_app_code` (source lines 205-225): strict
delimited format first, then the legacy `---README.md---` two-part format,
then whole-text-plus-synthesised-README. -/
def parseModelOutput (brief : Str) (checks : List Str) (attachmentsMeta : Str)
    (roundNum : Nat) (text : Str) : List (Str × Str) :=
  let ms := findAllMatches text
  if ms.isEmpty then
    match splitFirst legacySep text with
    | some q =>
      pyDictInsert (pyDictInsert [] ("index.html".toList) (stripCodeBlock q.1))
        ("README.md".toList) (stripCodeBlock q.2)
    | none =>
      pyDictInsert (pyDictInsert [] ("index.html".toList) (stripCodeBlock text))
        ("README.md".toList) (generate_readme_fallback brief checks attachmentsMeta roundNum)
  else
    ms.foldl (fun d m => pyDictInsert d (pstrip m.1) (stripCodeBlock (pstrip m.2))) []

/-! ## Expected-file extraction and the prompt (`generate_app_code`) -/

/-- `[\w\-]` for ASCII (`re` word characters plus the hyphen of the class). -/
def isWordChar (c : Char) : Bool :=
  ('a' ≤ c && c ≤ 'z') || ('A' ≤ c && c ≤ 'Z') || ('0' ≤ c && c ≤ '9') || c == '_' || c == '-'

def extAlts : List Str :=
  ["txt".toList, "json".toList, "md".toList, "svg".toList, "html".toList, "csv".toList]

/-- First alternative of `(?:txt|json|md|svg|html|csv)` matching as a prefix. -/
def extMatch (s : Str) : Option Str := extAlts.find? (fun e => e.isPrefixOf s)

/-- `re.findall(r'[\w\-]+\.(?:txt|json|md|svg|html|csv)', brief)`: at each
position the greedy word-run, a dot, and the first matching extension; on
failure advance one character, on success resume after the match. -/
def tokenAux : Nat → Str → List Str
  | 0, _ => []
  | _ + 1, [] => []
  | fuel + 1, c :: t =>
    match (c :: t).takeWhile isWordChar with
    | [] => tokenAux fuel t
    | r :: run =>
      match (c :: t).drop (r :: run).length with
      | '.' :: rest2 =>
        (match extMatch rest2 with
         | some e => ((r :: run) ++ '.' :: e) :: tokenAux fuel (rest2.drop e.length)
         | none => tokenAux fuel t)
      | _ => tokenAux fuel t

def tokenFindall (s : Str) : List Str := tokenAux s.length s

def expectedFilesOf (brief : Str) : List Str :=
  let ts := tokenFindall brief
  if ts.isEmpty then ["index.html".toList, "README.md".toList] else ts

def expectedListOf (brief : Str) : Str :=
  joinWith ("\n".toList) ((expectedFilesOf brief).map (fun f => "- ".toList ++ f))

/-- The round-2 context note (source lines 144-147): composed only when
`round_num == 2` and the previous README is truthy (present and non-empty). -/
def contextNoteOf (roundNum : Nat) (prevReadme : Option Str) : Str :=
  match prevReadme with
  | some p =>
    if roundNum == 2 && !p.isEmpty then
      "\n### Previous README.md:\n".toList ++ p ++
      "\n\nRevise and enhance this project according to the new brief below.\n".toList
    else []
  | none => []

/-- Single-quote character (39), for Python `repr` of a string. -/
def sqChar : Char := Char.ofNat 39

/-- Python `str` of a list of strings, as interpolated by the f-string
`{checks or []}` (repr escaping inside the items is not modelled; no claim
depends on it). -/
def pyListRepr (xs : List Str) : Str :=
  "[".toList ++ joinWith (", ".toList) (xs.map (fun s => sqChar :: (s ++ [sqChar]))) ++ "]".toList

/-- The user prompt composed by `generate_app_code` (source lines 150-180). -/
def userPromptOf (roundNum : Nat) (brief : Str) (prevReadme : Option Str)
    (attachmentsMeta : Str) (checks : List Str) : Str :=
  "\nYou are a professional full-stack web developer assistant.\n\n### Round\n".toList ++
  (toString roundNum).toList ++
  "\n\n### Task\n".toList ++ brief ++
  "\n\n".toList ++ contextNoteOf roundNum prevReadme ++
  "\n\n### Attachments (if any)\n".toList ++ attachmentsMeta ++
  "\n\n### Evaluation checks\n".toList ++ pyListRepr checks ++
  "\n\n### Expected files\nThe brief mentions or implies these files:\n".toList ++
  expectedListOf brief ++
  "\n\n### Output format rules:\n1. You must output **each file separately** using the following format:\n   >>> filename: <name.ext>\n   (file content here)\n   ---END FILE---\n2. Include *all files required by the brief* (e.g., ashravan.txt, dilemma.json, etc.).\n3. Every file must contain complete, valid content (valid JSON, SVG, HTML, etc.).\n4. Do NOT include commentary outside this format.\n5. The final output must contain all files in one response.\n".toList

/-- The canned two-file response substituted when the completion call raises
(source lines 195-203). -/
def fallbackText (brief : Str) : Str :=
  "\n>>> filename: index.html\n<html><body><h1>Fallback App</h1><p>".toList ++ brief ++
  "</p></body></html>\n---END FILE---\n>>> filename: README.md\n# Auto-generated README\nThis fallback was generated due to API error.\n---END FILE---\n".toList

/-! ## Attachment decoding (`llm_generator.decode_attachments`) -/

/-- An inbound attachment descriptor: optional `name`, optional `mime`, and
optionally a `content` string or a `url` string. -/
structure Att where
  name : Option Str
  mime : Option Str
  content : Option Str
  url : Option Str
deriving DecidableEq

structure SavedRec where
  name : Str
  path : Str
  mime : Str
  size : Nat
deriving DecidableEq

def tmpDirStr : Str := "/tmp/llm_attachments/".toList

/-- `att.get("name") or "attachment"` (Python truthiness: missing or empty
falls back). -/
def attName (a : Att) : Str :=
  match a.name with
  | some n => if n.isEmpty then "attachment".toList else n
  | none => "attachment".toList

/-- UTF-8 encoding of one character (Python `str.encode("utf-8")`). -/
def utf8Char (c : Char) : List Nat :=
  let n := c.toNat
  if n < 128 then [n]
  else if n < 2048 then [192 + n / 64, 128 + n % 64]
  else if n < 65536 then [224 + n / 4096, 128 + (n / 64) % 64, 128 + n % 64]
  else [240 + n / 262144, 128 + (n / 4096) % 64, 128 + (n / 64) % 64, 128 + n % 64]

def utf8Bytes (s : Str) : List Nat := s.foldr (fun c acc => utf8Char c ++ acc) []

/-- Base64 alphabet value of a character. -/
def b64Val (c : Char) : Option Nat :=
  if 'A' ≤ c && c ≤ 'Z' then some (c.toNat - 65)
  else if 'a' ≤ c && c ≤ 'z' then some (c.toNat - 97 + 26)
  else if '0' ≤ c && c ≤ '9' then some (c.toNat - 48 + 52)
  else if c == '+' then some 62
  else if c == '/' then some 63
  else none

/-- Decode 6-bit groups into bytes; a trailing group of 2 or 3 values yields
1 or 2 bytes (leftover bits discarded, as Python's decoder does). -/
def b64Quads : List Nat → List Nat
  | v1 :: v2 :: v3 :: v4 :: rest =>
    (v1 * 4 + v2 / 16) :: ((v2 % 16) * 16 + v3 / 4) :: ((v3 % 4) * 64 + v4) :: b64Quads rest
  | [v1, v2] => [v1 * 4 + v2 / 16]
  | [v1, v2, v3] => [v1 * 4 + v2 / 16, (v2 % 16) * 16 + v3 / 4]
  | _ => []

/-- `base64.b64decode` (default non-validating mode): characters outside the
alphabet and `=` are discarded; the total of kept characters must be a
multiple of 4, with at most two `=` and only at the end; otherwise the
padding error is raised (modelled as `Except.error`). -/
def b64decode (sIn : Str) : Except Unit (List Nat) :=
  let cs := sIn.filter (fun c => (b64Val c).isSome || c == '=')
  let dataCs := cs.takeWhile (fun c => !(c == '='))
  let padCs := cs.drop dataCs.length
  if !(padCs.all (fun c => c == '=')) then Except.error ()
  else if !(cs.length % 4 == 0) then Except.error ()
  else if 2 < padCs.length then Except.error ()
  else Except.ok (b64Quads (dataCs.map (fun c => (b64Val c).getD 0)))

/-- One descriptor of `decode_attachments`: `some (record, write)` when a
record is emitted together with the file write `(path, bytes)`; `none` when
the descriptor matches neither shape or its decode raises (the `except`
branch of the source). -/
def processAtt (a : Att) : Option (SavedRec × (Str × List Nat)) :=
  let nm := attName a
  let path := tmpDirStr ++ nm
  match a.content with
  | some c =>
    let mime := a.mime.getD ("text/plain".toList)
    if startsWith ("text".toList) mime then
      some (⟨nm, path, mime, (utf8Bytes c).length⟩, (path, utf8Bytes c))
    else
      match b64decode c with
      | Except.ok data => some (⟨nm, path, mime, data.length⟩, (path, data))
      | Except.error _ => none
  | none =>
    let url := a.url.getD []
    if startsWith ("data:".toList) url then
      match splitFirst (",".toList) url with
      | some q =>
        let mime := replaceAll ("data:".toList) [] (q.1.takeWhile (fun ch => !(ch == ';')))
        (match b64decode q.2 with
         | Except.ok data => some (⟨nm, path, mime, data.length⟩, (path, data))
         | Except.error _ => none)
      | none => none
    else none

/-- `decode_attachments`: the emitted records and the file writes, in order;
a failing descriptor contributes nothing and the batch continues. -/
def decode_attachments : List Att → List SavedRec × List (Str × List Nat)
  | [] => ([], [])
  | a :: rest =>
    let tl := decode_attachments rest
    match processAtt a with
    | some rw => (rw.1 :: tl.1, rw.2 :: tl.2)
    | none => tl

/-! ## Attachment summaries (`llm_generator.summarize_attachment_meta`) -/

def textExts : List Str := [".md".toList, ".txt".toList, ".json".toList, ".csv".toList]

/-- Python text-file line iteration: lines keep their terminators; a final
fragment without a newline is its own line; an empty file has no lines. -/
def pyLinesGo (cur : Str) : Str → List Str
  | [] => if cur.isEmpty then [] else [cur.reverse]
  | c :: t => if c == '\n' then (c :: cur).reverse :: pyLinesGo [] t else pyLinesGo (c :: cur) t

def pyLines (s : Str) : List Str := pyLinesGo [] s

/-- The per-record failure line of `summarize_attachment_meta` (`msg` is
`str(e)` of the caught exception; `str(StopIteration())` is empty). -/
def errLine (nm mime msg : Str) : Str :=
  "- ".toList ++ nm ++ " (".toList ++ mime ++ "): (could not read preview: ".toList ++
  msg ++ ")".toList

/-- `str(e)` of the OSError for a missing file, abstracted; only its presence
inside the placeholder line matters to the claims. -/
def fileErrMsg : Str := "[Errno 2] No such file or directory".toList

/-- One summary line of `summarize_attachment_meta`; `readF` models the
process file system at the time of the read (path to decoded text,
`errors="ignore"`). A `.csv` name takes `next(f)` three times, so a file
with fewer than 3 lines raises `StopIteration`, caught per record. -/
def summLine (readF : Str → Option Str) (s : SavedRec) : Str :=
  if startsWith ("text".toList) s.mime || textExts.any (fun e => endsWith e s.name) then
    match readF s.path with
    | none => errLine s.name s.mime fileErrMsg
    | some txt =>
      if endsWith (".csv".toList) s.name then
        if 3 ≤ (pyLines txt).length then
          "- ".toList ++ s.name ++ " (".toList ++ s.mime ++ "): preview: ".toList ++
          joinWith ("\\n".toList) (((pyLines txt).take 3).map pstrip)
        else errLine s.name s.mime []
      else
        "- ".toList ++ s.name ++ " (".toList ++ s.mime ++ "): preview: ".toList ++
        (replaceAll ("\n".toList) ("\\n".toList) (txt.take 1000)).take 1000
  else
    "- ".toList ++ s.name ++ " (".toList ++ s.mime ++ "): ".toList ++
    (toString s.size).toList ++ " bytes".toList

def summarize_attachment_meta (readF : Str → Option Str) (saved : List SavedRec) : Str :=
  joinWith ("\\n".toList) (saved.map (summLine readF))

/-! ## `generate_app_code` composed -/

structure GenResult where
  files : List (Str × Str)
  attachments : List SavedRec

/-- `generate_app_code`: decode attachments, summarise them, pick the model
text (`llm` is the completion call's outcome; on failure the canned fallback
text is substituted), and parse it into the file mapping. -/
def generate_app_code (brief : Str) (attachments : List Att) (checks : List Str)
    (roundNum : Nat) (prevReadme : Option Str) (readF : Str → Option Str)
    (llm : Except Unit Str) : GenResult :=
  let saved := (decode_attachments attachments).1
  let attachmentsMeta := summarize_attachment_meta readF saved
  let _userPrompt := userPromptOf roundNum brief prevReadme attachmentsMeta checks
  let text :=
    match llm with
    | Except.ok t => t
    | Except.error _ => fallbackText brief
  { files := parseModelOutput brief checks attachmentsMeta roundNum text
    attachments := saved }

/-! ## Pages enablement (`github_utils.enable_pages`, `main.process_request`) -/

def statusGood (s : Nat) : Bool := s == 201 || s == 202 || s == 422

/-- The fixed sleep between attempts (`delay: int = 2`). -/
def pagesDelay : Nat := 2

structure PagesResult where
  ok : Bool
  posts : Nat
  sleeps : Nat
deriving DecidableEq

/-- The retry loop of `enable_pages`: POST once per attempt, return success
on 201/202 (created/accepted) or 422 (already enabled), otherwise sleep
`pagesDelay` and continue; `st i` is the HTTP status of attempt `i`. -/
def pagesLoop (st : Nat → Nat) : Nat → Nat → PagesResult
  | _, 0 => ⟨false, 0, 0⟩
  | i, r + 1 =>
    if statusGood (st i) then ⟨true, 1, 0⟩
    else
      let q := pagesLoop st (i + 1) r
      ⟨q.ok, q.posts + 1, q.sleeps + 1⟩

def enable_pages (st : Nat → Nat) (retries : Nat) : PagesResult := pagesLoop st 0 retries

def pagesUrlOf (username taskId : Str) : Str :=
  "https://".toList ++ username ++ ".github.io/".toList ++ taskId ++ "/".toList

/-- Step 5 of `process_request`: on round 1 call `enable_pages` (3 retries)
and null the URL on failure; on any other round construct the URL directly
with no POST. Returns the pages URL and the number of POSTs made. -/
def pagesStep (roundNum : Nat) (st : Nat → Nat) (username taskId : Str) : Option Str × Nat :=
  if roundNum == 1 then
    let q := enable_pages st 3
    (if q.ok then some (pagesUrlOf username taskId) else none, q.posts)
  else (some (pagesUrlOf username taskId), 0)

/-! ## The endpoint and the idempotency store (`main.py`) -/

structure Payload where
  email : Str
  task : Str
  round : Nat
  nonce : Str
  repo_url : Str
  commit_sha : Option Str
  pages_url : Option Str
deriving DecidableEq

structure ReqData where
  secret : Str
  email : Str
  task : Str
  round : Nat
  nonce : Str
  brief : Str
  checks : List Str
  attachments : List Att
  evaluation_url : Str
deriving DecidableEq

inductive SrvAction where
  | notify (url : Option Str) (p : Payload)
  | schedule (d : ReqData)
deriving DecidableEq

/-- `f"{email}::{task}::round{round}::nonce{nonce}"`. -/
def dedupKey (email task : Str) (round : Nat) (nonce : Str) : Str :=
  email ++ "::".toList ++ task ++ "::round".toList ++ (toString round).toList ++
  "::nonce".toList ++ nonce

/-- `key in processed` / `processed[key]` on the persisted JSON object
(first matching key of the association list). -/
def storeLookup (k : Str) : List (Str × Payload) → Option Payload
  | [] => none
  | q :: t => if q.1 == k then some q.2 else storeLookup k t

/-- `processed[key] = payload` (JSON object assignment: overwrite or append). -/
def storeInsert (store : List (Str × Payload)) (k : Str) (v : Payload) : List (Str × Payload) :=
  if store.any (fun q => q.1 == k) then store.map (fun q => if q.1 == k then (k, v) else q)
  else store ++ [(k, v)]

def respInvalid : List (Str × Str) := [("error".toList, "Invalid secret".toList)]

def respDup : List (Str × Str) :=
  [("status".toList, "ok".toList), ("note".toList, "duplicate handled & re-notified".toList)]

def respAccepted (round : Nat) : List (Str × Str) :=
  [("status".toList, "accepted".toList),
   ("note".toList, "processing round ".toList ++ (toString round).toList ++ " started".toList)]

/-- `receive_request`: secret check, then duplicate detection against the
store; a known key synchronously re-notifies the stored payload and
schedules nothing; a new key schedules the background task. -/
def receive_request (userSecret : Str) (store : List (Str × Payload)) (d : ReqData) :
    List (Str × Str) × List SrvAction :=
  if d.secret == userSecret then
    match storeLookup (dedupKey d.email d.task d.round d.nonce) store with
    | some prev => (respDup, [SrvAction.notify (some d.evaluation_url) prev])
    | none => (respAccepted d.round, [SrvAction.schedule d])
  else (respInvalid, [])

/-- Results of the external collaborators during one background run. -/
structure ExtEnv where
  repo_html_url : Str
  commit_sha : Option Str
  pagesStatuses : Nat → Nat
  username : Str

/-- The publish payload assembled at step 7 of `process_request`. -/
def processPayload (d : ReqData) (env : ExtEnv) : Payload :=
  { email := d.email, task := d.task, round := d.round, nonce := d.nonce
    repo_url := env.repo_html_url, commit_sha := env.commit_sha
    pages_url := (pagesStep d.round env.pagesStatuses env.username d.task).1 }

/-- Step 8 of `process_request`: record the payload under the dedup key. -/
def process_request_record (d : ReqData) (env : ExtEnv) (store : List (Str × Payload)) :
    List (Str × Payload) :=
  storeInsert store (dedupKey d.email d.task d.round d.nonce) (processPayload d env)

/-! ## Concrete inputs used by witnesses and counterexamples -/

def wfExample : List (Str × Str) :=
  [("a.txt ".toList, "hello".toList), ("b.json".toList, "```\nbody\n```".toList)]

/-- Text rendering of a list of well-formed delimited blocks. -/
def renderBlock (b : Str × Str) : Str :=
  litFN ++ (' ' :: b.1) ++ ('\n' :: b.2) ++ endMk ++ ['\n']

def render : List (Str × Str) → Str
  | [] => []
  | b :: bs => renderBlock b ++ render bs

/-- Well-formedness of a delimited block: a non-empty filename with no
newline and no leading whitespace, and a content block that does not itself
contain the end-marker sequence. -/
def goodBlock (b : Str × Str) : Bool :=
  !b.1.isEmpty && !(isWs (b.1.headD ' ')) && b.1.all (fun ch => !(ch == '\n')) &&
  !(containsSubstr endMk b.2)

/-- A well-formed delimited response: at least one block, each block good,
and the trimmed filenames (the keys of the resulting mapping) distinct. -/
def wellFormedBlocks (bs : List (Str × Str)) : Prop :=
  bs ≠ [] ∧ bs.all goodBlock = true ∧ (bs.map (fun b => pstrip b.1)).Nodup

/-! ## Helper lemmas: prefixes and substrings -/

theorem isPrefixOf_append_self (l t : Str) : l.isPrefixOf (l ++ t) = true := by
  induction l with
  | nil => simp [List.isPrefixOf]
  | cons c cs ih => simp [List.isPrefixOf, ih]

theorem isPrefixOf_length_le {l s : Str} (h : l.isPrefixOf s = true) : l.length ≤ s.length := by
  induction l generalizing s with
  | nil => simp
  | cons c cs ih =>
    cases s with
    | nil => simp [List.isPrefixOf] at h
    | cons b bs =>
      simp only [List.isPrefixOf, Bool.and_eq_true] at h
      simpa using ih h.2

theorem isPrefixOf_take {l s : Str} (h : l.isPrefixOf s = true) : s.take l.length = l := by
  induction l generalizing s with
  | nil => simp
  | cons c cs ih =>
    cases s with
    | nil => simp [List.isPrefixOf] at h
    | cons b bs =>
      simp only [List.isPrefixOf, Bool.and_eq_true] at h
      have hcb := eq_of_beq h.1
      simp [List.take, hcb, ih h.2]

theorem isPrefixOf_append_left {l b w : Str} (hlen : l.length ≤ b.length)
    (h : l.isPrefixOf (b ++ w) = true) : l.isPrefixOf b = true := by
  induction l generalizing b with
  | nil => simp [List.isPrefixOf]
  | cons c cs ih =>
    cases b with
    | nil => simp at hlen
    | cons a as =>
      simp only [List.cons_append, List.isPrefixOf, Bool.and_eq_true] at h
      simp only [List.isPrefixOf, Bool.and_eq_true]
      exact ⟨h.1, ih (by simpa using hlen) h.2⟩

theorem isPrefixOf_append_peel {l b w : Str} (hlen : b.length ≤ l.length)
    (h : l.isPrefixOf (b ++ w) = true) :
    b = l.take b.length ∧ (l.drop b.length).isPrefixOf w = true := by
  induction b generalizing l with
  | nil => simpa using h
  | cons c cs ih =>
    cases l with
    | nil => simp at hlen
    | cons a as =>
      simp only [List.cons_append, List.isPrefixOf, Bool.and_eq_true] at h
      have hac := eq_of_beq h.1
      obtain ⟨h1, h2⟩ := ih (l := as) (by simpa using hlen) h.2
      refine ⟨?_, by simpa using h2⟩
      simp [List.take, hac, h1.symm]

theorem containsSubstr_of_isPrefixOf {p s : Str} (h : p.isPrefixOf s = true) :
    containsSubstr p s = true := by
  cases s with
  | nil =>
    cases p with
    | nil => rfl
    | cons c cs => simp [List.isPrefixOf] at h
  | cons c t => simp [containsSubstr, h]

theorem containsSubstr_append_right {p t : Str} (h : containsSubstr p t = true) (x : Str) :
    containsSubstr p (x ++ t) = true := by
  induction x with
  | nil => simpa
  | cons c cs ih => simp [containsSubstr, ih]

theorem containsSubstr_sandwich (a p b : Str) : containsSubstr p (a ++ (p ++ b)) = true :=
  containsSubstr_append_right (containsSubstr_of_isPrefixOf (isPrefixOf_append_self p b)) a

theorem splitFirst_eq_none {sep s : Str} (h : containsSubstr sep s = false) :
    splitFirst sep s = none := by
  induction s with
  | nil =>
    simp only [containsSubstr] at h
    simp [splitFirst, h]
  | cons c t ih =>
    simp only [containsSubstr, Bool.or_eq_false_iff] at h
    obtain ⟨h1, h2⟩ := h
    simp [splitFirst, h1, ih h2]

/-! ## Scanner step lemmas -/

theorem contentScan_snd_length (s : Str) : (contentScan s).2.length ≤ s.length := by
  induction s with
  | nil => simp [contentScan]
  | cons c t ih =>
    simp only [contentScan]
    by_cases h : (endMk.isPrefixOf (c :: t) || (c == '\n' && t.isEmpty)) = true
    · simp [h]
    · simp only [Bool.not_eq_true] at h
      simp only [h, if_false]
      exact le_trans ih (by simp)

theorem nameAt_some_length {t : Str} {k : Nat} {g r : Str} (h : nameAt t k = some (g, r)) :
    r.length + 1 ≤ t.length := by
  unfold nameAt at h
  split at h
  next c u hd =>
    split at h
    next ha =>
      injection h with h2
      injection h2 with hg hr
      have h1 : (u.dropWhile (fun d => !(d == '\n'))).length ≤ u.length :=
        (List.dropWhile_sublist _).length_le
      have h5 : r.length ≤ u.length := by
        rw [← hr, List.length_tail]; omega
      have h3 : u.length + 1 ≤ t.length := by
        have h4 := congrArg List.length hd
        simp only [List.length_drop, List.length_cons] at h4
        omega
      omega
    next => exact absurd h (by simp)
  next hd => exact absurd h (by simp)

theorem nameTryK_some_length {t : Str} {k : Nat} {g r : Str} (h : nameTryK t k = some (g, r)) :
    r.length + 1 ≤ t.length := by
  induction k with
  | zero => exact nameAt_some_length h
  | succ k ih =>
    unfold nameTryK at h
    rcases hA : nameAt t (k + 1) with _ | q <;> rw [hA] at h
    · exact ih h
    · have hq := Option.some.inj h
      subst hq
      exact nameAt_some_length hA

theorem nameSplit_some_length {t g r : Str} (h : nameSplit t = some (g, r)) :
    r.length + 1 ≤ t.length :=
  nameTryK_some_length h

theorem faAux_fuel (n : Nat) : ∀ f1 f2 s, s.length = n → n ≤ f1 → n ≤ f2 →
    faAux f1 s = faAux f2 s := by
  induction n using Nat.strong_induction_on with
  | _ n ih =>
    intro f1 f2 s hs h1 h2
    cases s with
    | nil => cases f1 <;> cases f2 <;> rfl
    | cons c t =>
      simp only [List.length_cons] at hs
      obtain ⟨a, rfl⟩ : ∃ a, f1 = a + 1 := ⟨f1 - 1, by omega⟩
      obtain ⟨b, rfl⟩ : ∃ b, f2 = b + 1 := ⟨f2 - 1, by omega⟩
      simp only [faAux]
      by_cases hp : litFN.isPrefixOf (c :: t) = true
      · simp only [hp, if_true]
        rcases hns : nameSplit ((c :: t).drop litFN.length) with _ | ⟨g, r⟩
        · exact ih t.length (by omega) a b t rfl (by omega) (by omega)
        · have hr := nameSplit_some_length hns
          simp only [List.length_drop, List.length_cons] at hr
          have hq := contentScan_snd_length r
          have hlit : litFN.length = 13 := by decide
          rw [hlit] at hr
          show (g, (contentScan r).1) :: faAux a (contentScan r).2 =
            (g, (contentScan r).1) :: faAux b (contentScan r).2
          congr 1
          exact ih ((contentScan r).2.length) (by omega) a b _ rfl (by omega) (by omega)
      · simp only [Bool.not_eq_true] at hp
        simp only [hp, Bool.false_eq_true, if_false]
        exact ih t.length (by omega) a b t rfl (by omega) (by omega)

theorem findAll_skip {c : Char} {t : Str} (h : litFN.isPrefixOf (c :: t) = false) :
    findAllMatches (c :: t) = findAllMatches t := by
  show faAux (c :: t).length (c :: t) = faAux t.length t
  simp only [List.length_cons, faAux, h, Bool.false_eq_true, if_false]

theorem findAll_match {s g r : Str} (hp : litFN.isPrefixOf s = true)
    (hns : nameSplit (s.drop litFN.length) = some (g, r)) :
    findAllMatches s = (g, (contentScan r).1) :: findAllMatches (contentScan r).2 := by
  cases s with
  | nil => exact absurd hp (by decide)
  | cons c t =>
    show faAux (c :: t).length (c :: t) = _
    simp only [List.length_cons, faAux, hp, if_true, hns]
    congr 1
    have hr := nameSplit_some_length hns
    simp only [List.length_drop, List.length_cons] at hr
    have hq := contentScan_snd_length r
    have hlit : litFN.length = 13 := by decide
    rw [hlit] at hr
    exact faAux_fuel ((contentScan r).2.length) t.length _ _ rfl (by omega) le_rfl

theorem litFN_no_match {c : Char} (t : Str) (h : c ≠ '>') :
    litFN.isPrefixOf (c :: t) = false := by
  have he : litFN = '>' :: ">> filename:".toList := by decide
  have hbe : ('>' == c) = false := by
    rw [beq_eq_false_iff_ne]
    exact fun hh => h hh.symm
  rw [he]
  simp [List.isPrefixOf, hbe]

theorem findAll_skipAll {w : Str} (h : ∀ c ∈ w, c ≠ '>') (z : Str) :
    findAllMatches (w ++ z) = findAllMatches z := by
  induction w with
  | nil => rfl
  | cons c cs ih =>
    rw [List.cons_append, findAll_skip (litFN_no_match _ (h c (by simp)))]
    exact ih (fun x hx => h x (by simp [hx]))

/-! ## Behaviour of the scanner on well-formed rendered blocks -/

theorem takeWhile_append_stop {p : Char → Bool} {l : Str} (hl : ∀ x ∈ l, p x = true)
    {y : Char} (hy : p y = false) (t : Str) : (l ++ y :: t).takeWhile p = l := by
  induction l with
  | nil => simp [List.takeWhile_cons, hy]
  | cons c cs ih =>
    have hc : p c = true := hl c (by simp)
    simp [List.takeWhile_cons, hc, ih (fun x hx => hl x (by simp [hx]))]

theorem dropWhile_append_stop {p : Char → Bool} {l : Str} (hl : ∀ x ∈ l, p x = true)
    {y : Char} (hy : p y = false) (t : Str) : (l ++ y :: t).dropWhile p = y :: t := by
  induction l with
  | nil => simp [List.dropWhile_cons, hy]
  | cons c cs ih =>
    have hc : p c = true := hl c (by simp)
    simp [List.dropWhile_cons, hc, ih (fun x hx => hl x (by simp [hx]))]

theorem nameSplit_render {n Y : Str} (hne : n ≠ []) (hh : isWs (n.headD ' ') = false)
    (hnl : n.all (fun ch => !(ch == '\n')) = true) :
    nameSplit (' ' :: (n ++ '\n' :: Y)) = some (n, Y) := by
  obtain ⟨nh, nt, rfl⟩ : ∃ nh nt, n = nh :: nt := by
    cases n with
    | nil => exact absurd rfl hne
    | cons a b => exact ⟨a, b, rfl⟩
  simp only [List.headD_cons] at hh
  have hall : ∀ x ∈ nh :: nt, (fun ch => !(ch == '\n')) x = true := by
    rw [← List.all_eq_true]; exact hnl
  have hW : ((' ' :: (nh :: nt ++ '\n' :: Y)).takeWhile isWs).length = 1 := by
    have h1 : isWs ' ' = true := by decide
    simp only [List.takeWhile_cons, h1, if_true]
    simp only [List.cons_append, List.takeWhile_cons, hh]
    simp
  have hNA : nameAt (' ' :: (nh :: nt ++ '\n' :: Y)) 1 = some (nh :: nt, Y) := by
    unfold nameAt
    have hd : (' ' :: (nh :: nt ++ '\n' :: Y)).drop 1 = nh :: (nt ++ '\n' :: Y) := by simp
    rw [hd]
    dsimp only
    have hany : (nt ++ '\n' :: Y).any (fun d => d == '\n') = true := by
      simp [List.any_append]
    rw [if_pos hany]
    have htk : (nt ++ '\n' :: Y).takeWhile (fun d => !(d == '\n')) = nt :=
      takeWhile_append_stop (fun x hx => hall x (by simp [hx])) (by simp) Y
    have hdw : (nt ++ '\n' :: Y).dropWhile (fun d => !(d == '\n')) = '\n' :: Y :=
      dropWhile_append_stop (fun x hx => hall x (by simp [hx])) (by simp) Y
    rw [htk, hdw]
    simp
  unfold nameSplit
  rw [hW]
  unfold nameTryK
  rw [hNA]

theorem contentScan_stop {s : Str} (h : endMk.isPrefixOf s = true) :
    contentScan s = ([], s) := by
  cases s with
  | nil => exact absurd h (by decide)
  | cons c t =>
    simp only [contentScan, h, Bool.true_or, if_true]

theorem contentScan_render {z : Str} :
    ∀ c : Str, (∀ b, b ≠ [] → b <:+ c → endMk.isPrefixOf (b ++ (endMk ++ z)) = false) →
    contentScan (c ++ (endMk ++ z)) = (c, endMk ++ z) := by
  intro c
  induction c with
  | nil =>
    intro _
    simpa using contentScan_stop (isPrefixOf_append_self endMk z)
  | cons ch c2 ih =>
    intro hc
    have hnp : endMk.isPrefixOf (ch :: (c2 ++ (endMk ++ z))) = false := by
      have := hc (ch :: c2) (by simp) (List.suffix_refl _)
      simpa using this
    have hlen : (c2 ++ (endMk ++ z)).isEmpty = false := by
      cases hq : c2 ++ (endMk ++ z) with
      | nil =>
        exact absurd hq (by simp [endMk])
      | cons a b => rfl
    have hcond : (endMk.isPrefixOf (ch :: (c2 ++ (endMk ++ z))) ||
        (ch == '\n' && (c2 ++ (endMk ++ z)).isEmpty)) = false := by
      rw [hnp, hlen]
      simp
    rw [List.cons_append]
    simp only [contentScan, hcond, Bool.false_eq_true, if_false]
    rw [ih (fun b hb hs => hc b hb (hs.trans (List.suffix_cons ch c2)))]

theorem marker_occurrence {b c z : Str} (hb : b ≠ []) (hsuf : b <:+ c)
    (h : endMk.isPrefixOf (b ++ (endMk ++ z)) = true) : containsSubstr endMk c = true := by
  by_cases hlen : endMk.length ≤ b.length
  · have hpb : endMk.isPrefixOf b = true := isPrefixOf_append_left hlen h
    obtain ⟨a, rfl⟩ := hsuf
    exact containsSubstr_append_right (containsSubstr_of_isPrefixOf hpb) a
  · push_neg at hlen
    obtain ⟨hbe, hdrop⟩ := isPrefixOf_append_peel (le_of_lt hlen) h
    have hlen2 : (endMk.drop b.length).length ≤ endMk.length := by
      simp [List.length_drop]
    have hpfx : (endMk.drop b.length).isPrefixOf endMk = true :=
      isPrefixOf_append_left hlen2 hdrop
    have htake : endMk.take (endMk.drop b.length).length = endMk.drop b.length :=
      isPrefixOf_take hpfx
    have hL : 1 ≤ b.length := by
      cases b with
      | nil => exact absurd rfl hb
      | cons x xs => simp
    have hfact : ∀ L, L < endMk.length → 1 ≤ L →
        endMk.take (endMk.length - L) ≠ endMk.drop L := by decide
    exact absurd (by simpa [List.length_drop] using htake)
      (hfact b.length hlen hL)

theorem render_no_marker {c : Str} (hno : containsSubstr endMk c = false) (z : Str) :
    ∀ b, b ≠ [] → b <:+ c → endMk.isPrefixOf (b ++ (endMk ++ z)) = false := by
  intro b hb hsuf
  cases h : endMk.isPrefixOf (b ++ (endMk ++ z)) with
  | false => rfl
  | true =>
    have hc := marker_occurrence hb hsuf h
    rw [hno] at hc
    exact absurd hc (by decide)

theorem findAll_render : ∀ bs : List (Str × Str), bs.all goodBlock = true →
    findAllMatches (render bs) = bs := by
  intro bs
  induction bs with
  | nil => intro _; rfl
  | cons b rest ih =>
    intro h
    obtain ⟨n, c⟩ := b
    rw [List.all_cons, Bool.and_eq_true] at h
    obtain ⟨hgood, hrest⟩ := h
    unfold goodBlock at hgood
    simp only [Bool.and_eq_true] at hgood
    obtain ⟨⟨⟨hge, hgh⟩, hgn⟩, hgc⟩ := hgood
    have hne : n ≠ [] := by
      cases hn : n with
      | nil => rw [hn] at hge; exact absurd hge (by decide)
      | cons a b => simp
    have hh : isWs (n.headD ' ') = false := by
      cases hin : isWs (n.headD ' ') with
      | false => rfl
      | true => rw [hin] at hgh; exact absurd hgh (by decide)
    have hnoc : containsSubstr endMk c = false := by
      cases hic : containsSubstr endMk c with
      | false => rfl
      | true => rw [hic] at hgc; exact absurd hgc (by decide)
    have hshape : render ((n, c) :: rest) =
        litFN ++ (' ' :: (n ++ '\n' :: (c ++ (endMk ++ ('\n' :: render rest))))) := by
      show renderBlock (n, c) ++ render rest = _
      unfold renderBlock
      simp [List.append_assoc]
    rw [hshape]
    have hp : litFN.isPrefixOf
        (litFN ++ (' ' :: (n ++ '\n' :: (c ++ (endMk ++ ('\n' :: render rest)))))) = true :=
      isPrefixOf_append_self _ _
    have hdrop : (litFN ++ (' ' :: (n ++ '\n' :: (c ++ (endMk ++ ('\n' :: render rest)))))).drop
        litFN.length = ' ' :: (n ++ '\n' :: (c ++ (endMk ++ ('\n' :: render rest)))) :=
      List.drop_left _ _
    have hns : nameSplit ((litFN ++ (' ' :: (n ++ '\n' :: (c ++ (endMk ++
        ('\n' :: render rest)))))).drop litFN.length) =
        some (n, c ++ (endMk ++ ('\n' :: render rest))) := by
      rw [hdrop]
      exact nameSplit_render hne hh hgn
    rw [findAll_match hp hns]
    have hcs : contentScan (c ++ (endMk ++ ('\n' :: render rest))) =
        (c, endMk ++ ('\n' :: render rest)) :=
      contentScan_render c (render_no_marker hnoc _)
    rw [hcs]
    have hsplit : endMk ++ ('\n' :: render rest) = (endMk ++ ['\n']) ++ render rest := by
      simp
    rw [hsplit, findAll_skipAll (by decide) (render rest), ih hrest]

theorem pyDictInsert_notmem {d : List (Str × Str)} {k : Str} (v : Str)
    (h : k ∉ d.map Prod.fst) : pyDictInsert d k v = d ++ [(k, v)] := by
  unfold pyDictInsert
  have hany : d.any (fun q => q.1 == k) = false := by
    rw [List.any_eq_false]
    intro q hq
    simp only [beq_iff_eq]
    exact fun he => h (he ▸ List.mem_map_of_mem Prod.fst hq)
  simp [hany]

theorem buildFiles_eq_map : ∀ (ms : List (Str × Str)) (acc : List (Str × Str)),
    (acc.map Prod.fst ++ ms.map (fun m => pstrip m.1)).Nodup →
    ms.foldl (fun d m => pyDictInsert d (pstrip m.1) (stripCodeBlock (pstrip m.2))) acc =
      acc ++ ms.map (fun m => (pstrip m.1, stripCodeBlock (pstrip m.2))) := by
  intro ms
  induction ms with
  | nil => intro acc _; simp
  | cons m rest ih =>
    intro acc hnd
    simp only [List.map_cons] at hnd
    have hk : pstrip m.1 ∉ acc.map Prod.fst := by
      rw [List.nodup_append] at hnd
      intro hmem
      exact hnd.2.2 hmem (by simp)
    rw [List.foldl_cons, pyDictInsert_notmem _ hk]
    rw [ih (acc ++ [(pstrip m.1, stripCodeBlock (pstrip m.2))]) (by
      simp only [List.map_append, List.map_cons, List.map_nil]
      rw [List.append_assoc]
      simpa using hnd)]
    simp

/-- C3: for every model response text in the well-formed delimited format
(each file introduced by a `>>> filename:` start-marker line, terminated by
an end marker) containing N distinct filenames, the parser returns a mapping
with exactly N entries, keyed by the whitespace-trimmed filenames, where
each entry's content has a single level of surrounding fenced-code markup
removed if present (the `_strip_code_block` transformation of the stripped
content block). -/
theorem claim3_wellformed_parse (brief attachmentsMeta : Str) (checks : List Str)
    (roundNum : Nat) (bs : List (Str × Str)) (h : wellFormedBlocks bs) :
    parseModelOutput brief checks attachmentsMeta roundNum (render bs) =
      bs.map (fun b => (pstrip b.1, stripCodeBlock (pstrip b.2))) ∧
    (parseModelOutput brief checks attachmentsMeta roundNum (render bs)).length = bs.length := by
  obtain ⟨hne, hall, hnd⟩ := h
  have hms : findAllMatches (render bs) = bs := findAll_render bs hall
  have hbe : bs.isEmpty = false := by
    cases bs with
    | nil => exact absurd rfl hne
    | cons a t => rfl
  have heq : parseModelOutput brief checks attachmentsMeta roundNum (render bs) =
      bs.map (fun b => (pstrip b.1, stripCodeBlock (pstrip b.2))) := by
    simp only [parseModelOutput, hms, hbe, Bool.false_eq_true, if_false]
    simpa using buildFiles_eq_map bs [] (by simpa using hnd)
  exact ⟨heq, by rw [heq]; simp⟩

theorem claim3_witness :
    wellFormedBlocks wfExample ∧
    parseModelOutput [] [] [] 1 (render wfExample) =
      [("a.txt".toList, "hello".toList), ("b.json".toList, "body".toList)] :=
  have hwf : wellFormedBlocks wfExample := ⟨by decide, by decide, by decide⟩
  ⟨hwf, (claim3_wellformed_parse [] [] [] 1 wfExample hwf).1.trans (by decide)⟩

theorem pyDictInsert_ne_nil (d : List (Str × Str)) (k v : Str) : pyDictInsert d k v ≠ [] := by
  unfold pyDictInsert
  by_cases h : d.any (fun q => q.1 == k) = true
  · simp only [h, if_true]
    cases d with
    | nil => simp at h
    | cons a t => simp
  · simp only [Bool.not_eq_true] at h
    simp [h]

theorem foldl_pyDictInsert_ne_nil (f g : Str × Str → Str) :
    ∀ (ms : List (Str × Str)) (d : List (Str × Str)), d ≠ [] →
    ms.foldl (fun d2 m => pyDictInsert d2 (f m) (g m)) d ≠ [] := by
  intro ms
  induction ms with
  | nil => intro d h; simpa
  | cons m rest ih =>
    intro d _
    rw [List.foldl_cons]
    exact ih _ (pyDictInsert_ne_nil _ _ _)

theorem parseModelOutput_ne_nil (brief : Str) (checks : List Str) (attachmentsMeta : Str)
    (roundNum : Nat) (text : Str) :
    parseModelOutput brief checks attachmentsMeta roundNum text ≠ [] := by
  simp only [parseModelOutput]
  by_cases h : (findAllMatches text).isEmpty = true
  · simp only [h, if_true]
    rcases hsp : splitFirst legacySep text with _ | q <;> simp only [hsp]
    · exact pyDictInsert_ne_nil _ _ _
    · exact pyDictInsert_ne_nil _ _ _
  · simp only [Bool.not_eq_true] at h
    simp only [h, Bool.false_eq_true, if_false]
    obtain ⟨m, rest, hms⟩ : ∃ m rest, findAllMatches text = m :: rest := by
      cases hf : findAllMatches text with
      | nil => rw [hf] at h; simp at h
      | cons a b => exact ⟨a, b, rfl⟩
    rw [hms, List.foldl_cons]
    exact foldl_pyDictInsert_ne_nil _ _ rest _ (pyDictInsert_ne_nil _ _ _)

/-- C2: for every brief, attachment list, checks list, round number and
previous-README value, the file mapping returned by `generate_app_code` is
non-empty, including when the completion-endpoint call raises
(`llm = Except.error`). -/
theorem claim2_files_nonempty (brief : Str) (atts : List Att) (checks : List Str)
    (roundNum : Nat) (prevReadme : Option Str) (readF : Str → Option Str)
    (llm : Except Unit Str) :
    (generate_app_code brief atts checks roundNum prevReadme readF llm).files ≠ [] := by
  simp only [generate_app_code]
  exact parseModelOutput_ne_nil _ _ _ _ _

theorem containsSubstr_in_middle {p s : Str} (x y : Str) (h : s = x ++ (p ++ y)) :
    containsSubstr p s = true := h ▸ containsSubstr_sandwich x p y

theorem pyDictInsert_two {k1 k2 : Str} (v1 v2 : Str) (h : (k1 == k2) = false) :
    pyDictInsert (pyDictInsert [] k1 v1) k2 v2 = [(k1, v1), (k2, v2)] := by
  simp [pyDictInsert, h]

/-- C4 counterexample: on the response text made only of a fenced block,
which contains neither the start-marker format nor the legacy separator, the
parser's `index.html` entry is the inside of the fence, not the trimmed full
response text. -/
theorem claim4_counterexample :
    parseModelOutput ("BRIEF".toList) [] [] 1 ("```x```".toList) =
      [("index.html".toList, "x".toList),
       ("README.md".toList, generate_readme_fallback ("BRIEF".toList) [] [] 1)] ∧
    pstrip ("```x```".toList) ≠ ("x".toList : Str) := by
  exact ⟨by decide, by decide⟩

/-- C4 (amended): for every model response text containing neither the
start-marker delimited format nor the legacy two-part separator, the parser
returns exactly two files: `index.html` equal to the trimmed full response
text when the text has no fenced-code marker and otherwise the text with one
level of fenced-code markup extracted, and a synthesized `README.md` that
contains the original brief text verbatim. -/
theorem claim4_amended (brief attachmentsMeta : Str) (checks : List Str) (roundNum : Nat)
    (text : Str) (h1 : findAllMatches text = [])
    (h2 : containsSubstr legacySep text = false) :
    parseModelOutput brief checks attachmentsMeta roundNum text =
      [("index.html".toList, stripCodeBlock text),
       ("README.md".toList, generate_readme_fallback brief checks attachmentsMeta roundNum)] ∧
    (containsSubstr fence text = false → stripCodeBlock text = pstrip text) ∧
    containsSubstr brief (generate_readme_fallback brief checks attachmentsMeta roundNum) =
      true := by
  refine ⟨?_, ?_, ?_⟩
  · simp only [parseModelOutput, h1, List.isEmpty_nil, if_true, splitFirst_eq_none h2]
    exact pyDictInsert_two _ _ (by decide)
  · intro h3
    simp only [stripCodeBlock, splitFirst_eq_none h3]
  · apply containsSubstr_in_middle
      ("# Auto-generated README (Round ".toList ++
        ((toString roundNum).toList ++ ")\n\n**Project brief:** ".toList))
      ("\n\n**Attachments:**\n".toList ++ (attachmentsMeta ++
        ("\n\n**Checks to meet:**\n".toList ++ (joinWith ("\\n".toList) checks ++
        "\n\n## Setup\n1. Open `index.html` in a browser.\n2. No build steps required.\n\n## Notes\nThis README was generated as a fallback (OpenAI did not return an explicit README).\n".toList))))
    simp [generate_readme_fallback, List.append_assoc]

theorem claim4_amended_witness :
    findAllMatches ("plain text".toList) = [] ∧
    containsSubstr legacySep ("plain text".toList) = false ∧
    parseModelOutput ("WXYZ".toList) [] [] 1 ("plain text".toList) =
      [("index.html".toList, stripCodeBlock ("plain text".toList)),
       ("README.md".toList, generate_readme_fallback ("WXYZ".toList) [] [] 1)] :=
  ⟨by decide, by decide,
    (claim4_amended ("WXYZ".toList) [] [] 1 ("plain text".toList) (by decide) (by decide)).1⟩

/-- C5 counterexample: round 3 with a non-empty previous README yields a
prompt with no context-note header and no trace of the previous README text,
refuting the claim for rounds greater than 2 (the source tests
`round_num == 2`, not `>= 2`). -/
theorem claim5_counterexample :
    2 ≤ 3 ∧ ("zzzzqqqq".toList : Str) ≠ [] ∧
    containsSubstr ("### Previous README.md:".toList)
      (userPromptOf 3 [] (some ("zzzzqqqq".toList)) [] []) = false ∧
    containsSubstr ("zzzzqqqq".toList)
      (userPromptOf 3 [] (some ("zzzzqqqq".toList)) [] []) = false := by
  exact ⟨by omega, by decide, by decide, by decide⟩

/-- C5 (amended): the user prompt composed by `generate_app_code` embeds the
context note containing the previous README exactly when the round number
equals 2 and a non-empty previous README exists; for any other round, or
when no previous README exists (absent or empty), no context note is
composed. -/
theorem claim5_amended (brief attachmentsMeta p : Str) (checks : List Str)
    (roundNum : Nat) (prev : Option Str) :
    (p ≠ [] → containsSubstr ("### Previous README.md:\n".toList ++ p)
      (userPromptOf 2 brief (some p) attachmentsMeta checks) = true) ∧
    (roundNum ≠ 2 ∨ prev = none ∨ prev = some [] → contextNoteOf roundNum prev = []) := by
  constructor
  · intro hp
    have hpe : p.isEmpty = false := by
      cases p with
      | nil => exact absurd rfl hp
      | cons a b => rfl
    have hnote : contextNoteOf 2 (some p) =
        "\n### Previous README.md:\n".toList ++
          (p ++ "\n\nRevise and enhance this project according to the new brief below.\n".toList) := by
      simp [contextNoteOf, hpe]
    apply containsSubstr_in_middle
      ("\nYou are a professional full-stack web developer assistant.\n\n### Round\n".toList ++
        ((toString 2).toList ++ ("\n\n### Task\n".toList ++ (brief ++
          ("\n\n".toList ++ "\n".toList)))))
      ("\n\nRevise and enhance this project according to the new brief below.\n".toList ++
        ("\n\n### Attachments (if any)\n".toList ++ (attachmentsMeta ++
          ("\n\n### Evaluation checks\n".toList ++ (pyListRepr checks ++
            ("\n\n### Expected files\nThe brief mentions or implies these files:\n".toList ++
              (expectedListOf brief ++
                "\n\n### Output format rules:\n1. You must output **each file separately** using the following format:\n   >>> filename: <name.ext>\n   (file content here)\n   ---END FILE---\n2. Include *all files required by the brief* (e.g., ashravan.txt, dilemma.json, etc.).\n3. Every file must contain complete, valid content (valid JSON, SVG, HTML, etc.).\n4. Do NOT include commentary outside this format.\n5. The final output must contain all files in one response.\n".toList)))))))
    rw [show "\n### Previous README.md:\n".toList =
      "\n".toList ++ "### Previous README.md:\n".toList from by decide] at hnote
    simp [userPromptOf, hnote, List.append_assoc]
  · intro hcase
    rcases hcase with h | h | h
    · have hb : (roundNum == 2) = false := by
        rw [beq_eq_false_iff_ne]; exact h
      cases prev with
      | none => rfl
      | some q => simp [contextNoteOf, hb]
    · subst h; rfl
    · subst h; simp [contextNoteOf]

theorem claim5_amended_witness :
    ("OLDREADME".toList : Str) ≠ [] ∧
    containsSubstr ("### Previous README.md:\n".toList ++ "OLDREADME".toList)
      (userPromptOf 2 ("b".toList) (some ("OLDREADME".toList)) [] []) = true :=
  ⟨by decide,
    (claim5_amended ("b".toList) [] ("OLDREADME".toList) [] 3 none).1 (by decide)⟩

theorem joinWith_mem_split {x : Str} (sep : Str) : ∀ {l : List Str}, x ∈ l →
    ∃ a b, joinWith sep l = a ++ (x ++ b) := by
  intro l
  induction l with
  | nil => intro hx; cases hx
  | cons y ys ih =>
    intro hx
    cases hx with
    | head =>
      cases ys with
      | nil => exact ⟨[], [], by simp [joinWith]⟩
      | cons z zs => exact ⟨[], sep ++ joinWith sep (z :: zs), by simp [joinWith]⟩
    | tail _ hmem =>
      cases ys with
      | nil => cases hmem
      | cons z zs =>
        obtain ⟨a, b, hab⟩ := ih hmem
        exact ⟨y ++ sep ++ a, b, by simp [joinWith, hab, List.append_assoc]⟩

/-- C6: for every brief, the expected-file list is exactly the regex token
scan of the brief in order, defaulting to exactly `index.html`, `README.md`
when no token matches; the brief "Create ashravan.txt and dilemma.json"
yields `[ashravan.txt, dilemma.json]`, and each extracted name appears
verbatim (as a `- name` line) in the prompt's expected-file section. -/
theorem claim6_expected_files (brief attachmentsMeta : Str) (checks : List Str)
    (roundNum : Nat) (prev : Option Str) (f : Str) (hf : f ∈ expectedFilesOf brief) :
    tokenFindall ("Create ashravan.txt and dilemma.json".toList) =
      ["ashravan.txt".toList, "dilemma.json".toList] ∧
    (tokenFindall brief = [] →
      expectedFilesOf brief = ["index.html".toList, "README.md".toList]) ∧
    (tokenFindall brief ≠ [] → expectedFilesOf brief = tokenFindall brief) ∧
    containsSubstr ("- ".toList ++ f)
      (userPromptOf roundNum brief prev attachmentsMeta checks) = true := by
  refine ⟨by decide, ?_, ?_, ?_⟩
  · intro h
    simp [expectedFilesOf, h]
  · intro h
    have hne : (tokenFindall brief).isEmpty = false := by
      cases ht : tokenFindall brief with
      | nil => exact absurd ht h
      | cons a b => rfl
    simp [expectedFilesOf, hne]
  · have hmem : ("- ".toList ++ f) ∈ (expectedFilesOf brief).map (fun f2 => "- ".toList ++ f2) :=
      List.mem_map_of_mem _ hf
    obtain ⟨a, b, hab⟩ := joinWith_mem_split ("\n".toList) hmem
    have hab2 : expectedListOf brief = a ++ (("- ".toList ++ f) ++ b) := hab
    apply containsSubstr_in_middle
      ("\nYou are a professional full-stack web developer assistant.\n\n### Round\n".toList ++
        ((toString roundNum).toList ++ ("\n\n### Task\n".toList ++ (brief ++
          ("\n\n".toList ++ (contextNoteOf roundNum prev ++
            ("\n\n### Attachments (if any)\n".toList ++ (attachmentsMeta ++
              ("\n\n### Evaluation checks\n".toList ++ (pyListRepr checks ++
                ("\n\n### Expected files\nThe brief mentions or implies these files:\n".toList ++
                  a)))))))))))
      (b ++
        "\n\n### Output format rules:\n1. You must output **each file separately** using the following format:\n   >>> filename: <name.ext>\n   (file content here)\n   ---END FILE---\n2. Include *all files required by the brief* (e.g., ashravan.txt, dilemma.json, etc.).\n3. Every file must contain complete, valid content (valid JSON, SVG, HTML, etc.).\n4. Do NOT include commentary outside this format.\n5. The final output must contain all files in one response.\n".toList)
    simp [userPromptOf, hab2, List.append_assoc]

theorem claim6_witness :
    ("ashravan.txt".toList : Str) ∈
      expectedFilesOf ("Create ashravan.txt and dilemma.json".toList) ∧
    containsSubstr ("- ".toList ++ "ashravan.txt".toList)
      (userPromptOf 1 ("Create ashravan.txt and dilemma.json".toList) none [] []) = true :=
  have hf : ("ashravan.txt".toList : Str) ∈
      expectedFilesOf ("Create ashravan.txt and dilemma.json".toList) := by decide
  ⟨hf, (claim6_expected_files ("Create ashravan.txt and dilemma.json".toList) [] [] 1 none
    ("ashravan.txt".toList) hf).2.2.2⟩

/-- C7: `decode_attachments` is total (the model function never fails); a
descriptor whose decode fails is skipped with no record and no file write
while the remaining descriptors are still processed; a content-bearing
descriptor with mime `text/plain` has its string written to disk as its
UTF-8 bytes and recorded with that byte length; a content-bearing
descriptor with a binary mime has its content base64-decoded and recorded
with the decoded byte length. -/
theorem claim7_decode_attachments :
    (∀ (a : Att) (atts : List Att), processAtt a = none →
      decode_attachments (a :: atts) = decode_attachments atts) ∧
    (∀ (a : Att) (c : Str), a.content = some c → a.mime = some ("text/plain".toList) →
      processAtt a = some (⟨attName a, tmpDirStr ++ attName a, "text/plain".toList,
        (utf8Bytes c).length⟩, (tmpDirStr ++ attName a, utf8Bytes c))) ∧
    (∀ (a : Att) (c m : Str) (bs : List Nat), a.content = some c → a.mime = some m →
      startsWith ("text".toList) m = false → b64decode c = Except.ok bs →
      processAtt a = some (⟨attName a, tmpDirStr ++ attName a, m, bs.length⟩,
        (tmpDirStr ++ attName a, bs))) := by
  refine ⟨?_, ?_, ?_⟩
  · intro a atts h
    simp [decode_attachments, h]
  · intro a c h1 h2
    simp only [processAtt, h1, h2, Option.getD_some]
    rw [if_pos (by decide)]
  · intro a c m bs h1 h2 h3 h4
    simp only [processAtt, h1, h2, Option.getD_some, h3, Bool.false_eq_true, if_false, h4]

theorem claim7_witness :
    processAtt (⟨some ("bad.bin".toList), some ("application/octet-stream".toList),
      some ("abc".toList), none⟩ : Att) = none ∧
    decode_attachments
      [⟨some ("bad.bin".toList), some ("application/octet-stream".toList),
        some ("abc".toList), none⟩,
       ⟨some ("a.txt".toList), some ("text/plain".toList), some ("hi".toList), none⟩] =
      decode_attachments
      [⟨some ("a.txt".toList), some ("text/plain".toList), some ("hi".toList), none⟩] ∧
    processAtt (⟨some ("a.txt".toList), some ("text/plain".toList),
      some ("hi".toList), none⟩ : Att) =
      some (⟨"a.txt".toList, tmpDirStr ++ "a.txt".toList, "text/plain".toList, 2⟩,
        (tmpDirStr ++ "a.txt".toList, [104, 105])) ∧
    processAtt (⟨some ("b.bin".toList), some ("application/octet-stream".toList),
      some ("aGVsbG8=".toList), none⟩ : Att) =
      some (⟨"b.bin".toList, tmpDirStr ++ "b.bin".toList, "application/octet-stream".toList, 5⟩,
        (tmpDirStr ++ "b.bin".toList, [104, 101, 108, 108, 111])) :=
  have hbad : processAtt (⟨some ("bad.bin".toList), some ("application/octet-stream".toList),
      some ("abc".toList), none⟩ : Att) = none := by decide
  ⟨hbad, claim7_decode_attachments.1 _ _ hbad,
    (claim7_decode_attachments.2.1 _ ("hi".toList) rfl rfl).trans (by decide),
    (claim7_decode_attachments.2.2 _ ("aGVsbG8=".toList) _ [104, 101, 108, 108, 111]
      rfl rfl (by decide) (by rfl)).trans (by decide)⟩

/-- C9: a content-bearing attachment descriptor that omits the optional mime
field is treated as mime `text/plain`: the content string is written as its
UTF-8 bytes (never base64-decoded) and the emitted record's mime field is
`text/plain`. -/
theorem claim9_default_mime (a : Att) (c : Str) (h1 : a.content = some c)
    (h2 : a.mime = none) :
    processAtt a = some (⟨attName a, tmpDirStr ++ attName a, "text/plain".toList,
      (utf8Bytes c).length⟩, (tmpDirStr ++ attName a, utf8Bytes c)) := by
  simp only [processAtt, h1, h2, Option.getD_none]
  rw [if_pos (by decide)]

theorem claim9_witness :
    processAtt (⟨some ("n.txt".toList), none, some ("ok".toList), none⟩ : Att) =
      some (⟨"n.txt".toList, tmpDirStr ++ "n.txt".toList, "text/plain".toList, 2⟩,
        (tmpDirStr ++ "n.txt".toList, [111, 107])) :=
  (claim9_default_mime _ ("ok".toList) rfl rfl).trans (by decide)

/-! ## Pages enablement lemmas -/

theorem pagesLoop_posts_le (st : Nat → Nat) : ∀ (r i : Nat), (pagesLoop st i r).posts ≤ r := by
  intro r
  induction r with
  | zero => intro i; simp [pagesLoop]
  | succ n ih =>
    intro i
    simp only [pagesLoop]
    by_cases h : statusGood (st i) = true
    · simp [h]
    · simp only [Bool.not_eq_true] at h
      simp only [h, Bool.false_eq_true, if_false]
      simpa using Nat.succ_le_succ (ih (i + 1))

/-- C8: the static-hosting enable step makes at most 3 POST attempts (with
the fixed `pagesDelay` sleep after each failed one), returns success as soon
as an attempt receives HTTP 201, 202 or 422, and returns failure after all
attempts fail, in which case the published payload's pages URL is null
(round 1); it runs only when the request's round equals 1 — for any other
round the pages URL is constructed directly with zero POSTs. -/
theorem claim8_enable_pages :
    (∀ st : Nat → Nat, (enable_pages st 3).posts ≤ 3) ∧
    (∀ (st : Nat → Nat) (k : Nat), k < 3 → statusGood (st k) = true →
      (∀ j, j < k → statusGood (st j) = false) → enable_pages st 3 = ⟨true, k + 1, k⟩) ∧
    (∀ st : Nat → Nat, (∀ j, j < 3 → statusGood (st j) = false) →
      enable_pages st 3 = ⟨false, 3, 3⟩) ∧
    (∀ (st : Nat → Nat) (u t : Str), (∀ j, j < 3 → statusGood (st j) = false) →
      pagesStep 1 st u t = (none, 3)) ∧
    (∀ (st : Nat → Nat) (r : Nat) (u t : Str), 2 ≤ r →
      pagesStep r st u t = (some (pagesUrlOf u t), 0)) := by
  have hfail : ∀ (st : Nat → Nat), (∀ j, j < 3 → statusGood (st j) = false) →
      enable_pages st 3 = ⟨false, 3, 3⟩ := by
    intro st h
    simp [enable_pages, pagesLoop, h 0 (by omega), h 1 (by omega), h 2 (by omega)]
  refine ⟨fun st => pagesLoop_posts_le st 3 0, ?_, hfail, ?_, ?_⟩
  · intro st k hk hgood hj
    interval_cases k
    · simp [enable_pages, pagesLoop, hgood]
    · simp [enable_pages, pagesLoop, hgood, hj 0 (by omega)]
    · simp [enable_pages, pagesLoop, hgood, hj 0 (by omega), hj 1 (by omega)]
  · intro st u t h
    simp [pagesStep, hfail st h]
  · intro st r u t hr
    have hb : (r == 1) = false := by
      rw [beq_eq_false_iff_ne]; omega
    simp [pagesStep, hb]

theorem claim8_witness :
    enable_pages (fun i => if i = 1 then 201 else 500) 3 = ⟨true, 2, 1⟩ ∧
    pagesStep 1 (fun _ => 500) ("u".toList) ("t".toList) = (none, 3) ∧
    pagesStep 2 (fun _ => 500) ("u".toList) ("t".toList) =
      (some (pagesUrlOf ("u".toList) ("t".toList)), 0) :=
  ⟨claim8_enable_pages.2.1 _ 1 (by omega) (by decide)
      (fun j hj => by
        have hj0 : j = 0 := by omega
        subst hj0; decide),
    claim8_enable_pages.2.2.2.1 _ ("u".toList) ("t".toList)
      (fun j _ => by decide),
    claim8_enable_pages.2.2.2.2 _ 2 ("u".toList) ("t".toList) (by omega)⟩

/-- C10: for every decoded attachment whose name ends in `.csv` but whose
file on disk holds fewer than 3 lines, the summariser emits the per-record
"could not read preview" placeholder line (the `StopIteration` of the third
`next(f)` stringifies to the empty message) instead of a preview of the
available lines, and the whole batch still returns normally (the summary is
the join of the per-record lines). -/
theorem claim10_csv_preview (readF : Str → Option Str) (s : SavedRec) (txt : Str)
    (h1 : endsWith (".csv".toList) s.name = true)
    (h2 : readF s.path = some txt)
    (h3 : (pyLines txt).length < 3) :
    summLine readF s = errLine s.name s.mime [] ∧
    containsSubstr ("could not read preview".toList) (summLine readF s) = true ∧
    (∀ pre post : List SavedRec, summarize_attachment_meta readF (pre ++ s :: post) =
      joinWith ("\\n".toList) ((pre ++ s :: post).map (summLine readF))) := by
  have hany : textExts.any (fun e => endsWith e s.name) = true := by
    simp only [textExts, List.any_cons, List.any_nil, Bool.or_eq_true, Bool.or_false]
    exact Or.inr (Or.inr (Or.inr h1))
  have hcond : (startsWith ("text".toList) s.mime ||
      textExts.any (fun e => endsWith e s.name)) = true := by
    simp [hany]
  have hmain : summLine readF s = errLine s.name s.mime [] := by
    simp only [summLine, hcond, if_true, h2]
    rw [if_pos h1, if_neg (by omega)]
  refine ⟨hmain, ?_, fun pre post => rfl⟩
  rw [hmain]
  apply containsSubstr_in_middle
    ("- ".toList ++ (s.name ++ (" (".toList ++ (s.mime ++ "): (".toList))))
    (": ".toList ++ ([] ++ ")".toList))
  simp only [errLine]
  rw [show "): (could not read preview: ".toList =
    "): (".toList ++ ("could not read preview".toList ++ ": ".toList) from by decide]
  simp [List.append_assoc]

theorem claim10_witness :
    endsWith (".csv".toList) ("d.csv".toList) = true ∧
    (pyLines ("a,b\n1,2\n".toList)).length < 3 ∧
    summLine (fun p => if p == (tmpDirStr ++ "d.csv".toList) then some ("a,b\n1,2\n".toList)
        else none)
      (⟨"d.csv".toList, tmpDirStr ++ "d.csv".toList, "text/csv".toList, 8⟩ : SavedRec) =
      errLine ("d.csv".toList) ("text/csv".toList) [] :=
  ⟨by decide, by decide,
    (claim10_csv_preview
      (fun p => if p == (tmpDirStr ++ "d.csv".toList) then some ("a,b\n1,2\n".toList) else none)
      (⟨"d.csv".toList, tmpDirStr ++ "d.csv".toList, "text/csv".toList, 8⟩ : SavedRec)
      ("a,b\n1,2\n".toList) (by decide) (by decide) (by decide)).1⟩

/-! ## Idempotency-store lemmas -/

theorem storeLookup_skip : ∀ (t : List (Str × Payload)) (k : Str) (l2 : List (Str × Payload)),
    t.any (fun q => q.1 == k) = false → storeLookup k (t ++ l2) = storeLookup k l2 := by
  intro t
  induction t with
  | nil => intro k l2 _; rfl
  | cons a t2 ih =>
    intro k l2 h
    simp only [List.any_cons, Bool.or_eq_false_iff] at h
    simp only [List.cons_append, storeLookup, h.1, Bool.false_eq_true, if_false]
    exact ih k l2 h.2

theorem storeLookup_insert : ∀ (store : List (Str × Payload)) (k : Str) (v : Payload),
    storeLookup k (storeInsert store k v) = some v := by
  intro store
  induction store with
  | nil =>
    intro k v
    simp [storeInsert, storeLookup]
  | cons a t ih =>
    intro k v
    by_cases ha : (a.1 == k) = true
    · have hany : (a :: t).any (fun q => q.1 == k) = true := by
        simp [List.any_cons, ha]
      simp only [storeInsert, hany, if_true, List.map_cons, ha]
      simp [storeLookup]
    · have hafalse : (a.1 == k) = false := by
        cases hx : (a.1 == k) with
        | false => rfl
        | true => exact absurd hx ha
      by_cases ht : t.any (fun q => q.1 == k) = true
      · have hany : (a :: t).any (fun q => q.1 == k) = true := by
          simp [List.any_cons, ht]
        have ih2 := ih k v
        simp only [storeInsert, ht, if_true] at ih2
        simp only [storeInsert, hany, if_true, List.map_cons, hafalse, Bool.false_eq_true,
          if_false, storeLookup]
        exact ih2
      · have htfalse : t.any (fun q => q.1 == k) = false := by
          cases hx : t.any (fun q => q.1 == k) with
          | false => rfl
          | true => exact absurd hx ht
        have hany : (a :: t).any (fun q => q.1 == k) = false := by
          simp [List.any_cons, hafalse, htfalse]
        simp only [storeInsert, hany, Bool.false_eq_true, if_false, List.cons_append,
          storeLookup, hafalse]
        rw [storeLookup_skip t k _ htfalse]
        simp [storeLookup]

/-- C1: for every two requests carrying the same secret and identical
(email, task, round, nonce), processed one after the other with the first's
background workflow completed (its payload recorded under the dedup key),
only the first schedules the publishing workflow; the second is answered
synchronously with `{"status": "ok", "note": "duplicate handled &
re-notified"}` and re-sends to the evaluator exactly the payload recorded
for the first, scheduling no new work. -/
theorem claim1_dedup_replay (userSecret : Str) (store : List (Str × Payload))
    (d1 d2 : ReqData) (env : ExtEnv)
    (h1 : d1.secret = userSecret) (h2 : d2.secret = userSecret)
    (he : d2.email = d1.email) (ht : d2.task = d1.task) (hr : d2.round = d1.round)
    (hn : d2.nonce = d1.nonce)
    (hnew : storeLookup (dedupKey d1.email d1.task d1.round d1.nonce) store = none) :
    receive_request userSecret store d1 = (respAccepted d1.round, [SrvAction.schedule d1]) ∧
    receive_request userSecret (process_request_record d1 env store) d2 =
      (respDup, [SrvAction.notify (some d2.evaluation_url) (processPayload d1 env)]) := by
  have hs1 : (d1.secret == userSecret) = true := by rw [beq_iff_eq]; exact h1
  have hs2 : (d2.secret == userSecret) = true := by rw [beq_iff_eq]; exact h2
  constructor
  · simp [receive_request, hs1, hnew]
  · have hkey : dedupKey d2.email d2.task d2.round d2.nonce =
        dedupKey d1.email d1.task d1.round d1.nonce := by
      unfold dedupKey
      rw [he, ht, hr, hn]
    have hlook : storeLookup (dedupKey d2.email d2.task d2.round d2.nonce)
        (process_request_record d1 env store) = some (processPayload d1 env) := by
      rw [hkey]
      simp only [process_request_record]
      exact storeLookup_insert store _ _
    simp [receive_request, hs2, hlook]

theorem claim1_witness :
    storeLookup (dedupKey ("a@b.com".toList) ("demo1".toList) 1 ("n1".toList)) [] = none ∧
    receive_request ("S".toList) []
      (⟨"S".toList, "a@b.com".toList, "demo1".toList, 1, "n1".toList,
        "Build index.html".toList, [], [], "http://e".toList⟩ : ReqData) =
      (respAccepted 1,
        [SrvAction.schedule
          (⟨"S".toList, "a@b.com".toList, "demo1".toList, 1, "n1".toList,
            "Build index.html".toList, [], [], "http://e".toList⟩ : ReqData)]) ∧
    receive_request ("S".toList)
      (process_request_record
        (⟨"S".toList, "a@b.com".toList, "demo1".toList, 1, "n1".toList,
          "Build index.html".toList, [], [], "http://e".toList⟩ : ReqData)
        (⟨"http://repo".toList, some ("sha".toList), fun _ => 201, "user".toList⟩ : ExtEnv) [])
      (⟨"S".toList, "a@b.com".toList, "demo1".toList, 1, "n1".toList,
        "Build index.html".toList, [], [], "http://e".toList⟩ : ReqData) =
      (respDup,
        [SrvAction.notify (some ("http://e".toList))
          (processPayload
            (⟨"S".toList, "a@b.com".toList, "demo1".toList, 1, "n1".toList,
              "Build index.html".toList, [], [], "http://e".toList⟩ : ReqData)
            (⟨"http://repo".toList, some ("sha".toList), fun _ => 201,
              "user".toList⟩ : ExtEnv))]) :=
  ⟨rfl,
    (claim1_dedup_replay ("S".toList) [] _ _
      (⟨"http://repo".toList, some ("sha".toList), fun _ => 201, "user".toList⟩ : ExtEnv)
      rfl rfl rfl rfl rfl rfl rfl).1,
    (claim1_dedup_replay ("S".toList) [] _ _
      (⟨"http://repo".toList, some ("sha".toList), fun _ => 201, "user".toList⟩ : ExtEnv)
      rfl rfl rfl rfl rfl rfl rfl).2⟩
